import Mathlib

/-!
# Verification of the ccxt-download fetch/partition/load core

This file gives a shallow embedding, in Lean 4, of the pure core of the
`ccxt_download` package (`utilities.py`, `public.py`, `constants.py`):

* Python string primitives used by the code (`str.replace`, `str.split`,
  `str.join`, the `in` substring test, `int(...)` parsing) are modelled over
  `List Char`, executable and fuel-based so that they evaluate in the kernel.
* `datetime` instants are modelled as seconds since 1970-01-01 UTC (`Nat`);
  `timedelta` values as seconds (`Int`).  Calendar structure (year / month /
  day) is recovered through the standard civil-calendar conversions.
* The pandas pipeline at the end of `load_data` is modelled by a small
  `PDFrame` structure carrying a column list and rows, faithful to the
  operations actually applied (`concat`, per-file index dedup, `sort_index`,
  `set_index(["symbol"], append=True)` + duplicate drop).
* Numeric OHLCV / trade / funding payloads (Python floats) are abstracted to
  `Int`; every property proved here concerns timestamps, filenames, window
  arithmetic and control flow, none of which inspect those payloads.

Theorems named `C1_*` .. `C10_*` settle the corresponding claims.
-/

set_option autoImplicit false

/-! ## Python string primitives over `List Char` -/

/-- One step-bounded pass of Python's `str.replace(p, r)`: scan `s` left to
right, replacing each non-overlapping occurrence of `p` by `r`.  `fuel` bounds
the number of scanned positions; `pyReplace` instantiates it with `s.length`,
which is exact since every step consumes at least one character. -/
def pyReplaceGo (p r : List Char) : Nat → List Char → List Char
  | 0, s => s
  | _ + 1, [] => []
  | fuel + 1, c :: t =>
    if !p.isEmpty && p.isPrefixOf (c :: t) then
      r ++ pyReplaceGo p r fuel ((c :: t).drop p.length)
    else
      c :: pyReplaceGo p r fuel t

/-- Python `s.replace(p, r)` (for nonempty `p`; an empty pattern is out of the
model's domain, the source only replaces nonempty literals). -/
def pyReplace (p r s : List Char) : List Char :=
  pyReplaceGo p r s.length s

/-- The result of `pyReplaceGo` does not depend on the fuel once the fuel is at
least the length of the scanned list. -/
theorem pyReplaceGo_fuel (p r : List Char) :
    ∀ (n : Nat) (s : List Char), s.length ≤ n →
      ∀ (f1 f2 : Nat), s.length ≤ f1 → s.length ≤ f2 →
        pyReplaceGo p r f1 s = pyReplaceGo p r f2 s := by
  intro n
  induction n with
  | zero =>
    intro s hs f1 f2 _ _
    have : s = [] := List.eq_nil_of_length_eq_zero (Nat.le_zero.mp hs)
    subst this
    cases f1 <;> cases f2 <;> rfl
  | succ n ih =>
    intro s hs f1 f2 h1 h2
    cases s with
    | nil => cases f1 <;> cases f2 <;> rfl
    | cons c t =>
      cases f1 with
      | zero => exact absurd h1 (by simp)
      | succ f1 =>
        cases f2 with
        | zero => exact absurd h2 (by simp)
        | succ f2 =>
          have ht : t.length ≤ n := by simpa using hs
          have ht1 : t.length ≤ f1 := by simpa using h1
          have ht2 : t.length ≤ f2 := by simpa using h2
          show pyReplaceGo p r (f1 + 1) (c :: t) = pyReplaceGo p r (f2 + 1) (c :: t)
          rw [pyReplaceGo, pyReplaceGo]
          by_cases hmatch : (!p.isEmpty && p.isPrefixOf (c :: t)) = true
          · rw [if_pos hmatch, if_pos hmatch]
            have hpne : 0 < p.length := by
              cases p with
              | nil => simp at hmatch
              | cons a q => simp
            have hd : ((c :: t).drop p.length).length ≤ t.length := by
              simp only [List.length_drop, List.length_cons]
              omega
            exact congrArg (r ++ ·)
              (ih _ (le_trans hd ht) f1 f2 (le_trans hd ht1) (le_trans hd ht2))
          · rw [if_neg hmatch, if_neg hmatch]
            exact congrArg (c :: ·) (ih t ht f1 f2 ht1 ht2)

theorem pyReplace_nil (p r : List Char) : pyReplace p r [] = [] := rfl

/-- A list is a Boolean prefix of itself followed by anything. -/
theorem isPrefixOf_append_self (l t : List Char) : l.isPrefixOf (l ++ t) = true := by
  induction l with
  | nil => cases t <;> rfl
  | cons a l ih => simp [List.isPrefixOf, ih]

/-- Scanning a list that starts with the pattern emits the replacement and
continues after the pattern. -/
theorem pyReplace_match (p r t : List Char) (hp : p ≠ []) :
    pyReplace p r (p ++ t) = r ++ pyReplace p r t := by
  obtain ⟨a, p', rfl⟩ := List.exists_cons_of_ne_nil hp
  show pyReplaceGo (a :: p') r ((a :: p') ++ t).length ((a :: p') ++ t) = _
  have hlen : ((a :: p') ++ t).length = p'.length + t.length + 1 := by
    simp [List.length_append]
  rw [hlen]
  show pyReplaceGo (a :: p') r (p'.length + t.length + 1) (a :: (p' ++ t)) = _
  rw [pyReplaceGo]
  have hpre : (a :: p').isPrefixOf (a :: (p' ++ t)) = true :=
    isPrefixOf_append_self (a :: p') t
  have hcond : (!(a :: p').isEmpty && (a :: p').isPrefixOf (a :: (p' ++ t))) = true := by
    simp [hpre]
  rw [if_pos hcond]
  have hdrop : (a :: (p' ++ t)).drop (a :: p').length = t := by
    show ((a :: p') ++ t).drop (a :: p').length = t
    simp
  rw [hdrop]
  exact congrArg (r ++ ·)
    (pyReplaceGo_fuel (a :: p') r t.length t le_rfl (p'.length + t.length) t.length
      (by omega) le_rfl)

/-- Scanning a list whose head does not begin an occurrence of the pattern
keeps the head and continues on the tail. -/
theorem pyReplace_nomatch (p r : List Char) (c : Char) (t : List Char)
    (h : p.isPrefixOf (c :: t) = false) :
    pyReplace p r (c :: t) = c :: pyReplace p r t := by
  show pyReplaceGo p r (c :: t).length (c :: t) = _
  have : (c :: t).length = t.length + 1 := rfl
  rw [this, pyReplaceGo]
  rw [if_neg (by simp [h])]
  rfl

/-- Python's substring test `p in s`. -/
def pyContains (p : List Char) : List Char → Bool
  | [] => p.isEmpty
  | c :: t => p.isPrefixOf (c :: t) || pyContains p t

/-- Fuel-bounded core of Python's `s.split(sep)` for a nonempty separator. -/
def pySplitGo (sep : List Char) : Nat → List Char → List (List Char)
  | 0, s => [s]
  | _ + 1, [] => [[]]
  | fuel + 1, c :: t =>
    if !sep.isEmpty && sep.isPrefixOf (c :: t) then
      [] :: pySplitGo sep fuel ((c :: t).drop sep.length)
    else
      match pySplitGo sep fuel t with
      | [] => [[c]]
      | seg :: rest => (c :: seg) :: rest

/-- Python `s.split(sep)` (nonempty separator). -/
def pySplit (sep s : List Char) : List (List Char) :=
  pySplitGo sep s.length s

/-- Python `sep.join(parts)`. -/
def pyJoin (sep : List Char) : List (List Char) → List Char
  | [] => []
  | [x] => x
  | x :: xs => x ++ sep ++ pyJoin sep xs

/-! ## `constants.py`: `STR_CONVERSIONS`, and `utilities.py`: `format_str` / `unformat_str` -/

/-- `STR_CONVERSIONS = {"/": "%2F", ":": "%3A"}` (insertion-ordered, as a
Python dict is). -/
def STR_CONVERSIONS : List (List Char × List Char) :=
  [("/".toList, "%2F".toList), (":".toList, "%3A".toList)]

/-- `format_str`: successively replace each key of `STR_CONVERSIONS` by its
value. -/
def format_str (s : List Char) : List Char :=
  STR_CONVERSIONS.foldl (fun acc kv => pyReplace kv.1 kv.2 acc) s

/-- `unformat_str`: successively replace each value of `STR_CONVERSIONS` by
its key (the reversed map, in the same order). -/
def unformat_str (s : List Char) : List Char :=
  (STR_CONVERSIONS.map (fun kv => (kv.2, kv.1))).foldl
    (fun acc kv => pyReplace kv.1 kv.2 acc) s

theorem format_str_eq (s : List Char) :
    format_str s
      = pyReplace [':'] ['%', '3', 'A'] (pyReplace ['/'] ['%', '2', 'F'] s) := rfl

theorem unformat_str_eq (s : List Char) :
    unformat_str s
      = pyReplace ['%', '3', 'A'] [':'] (pyReplace ['%', '2', 'F'] ['/'] s) := rfl

/-! ## Time model

A `datetime` instant is modelled as a whole number of seconds since
1970-01-01T00:00:00 UTC (the source only ever builds timezone-aware UTC
datetimes, and none of the claims depend on sub-second precision).  A
`timedelta` is a signed number of seconds.  Calendar (year, month, day)
structure is recovered with the standard civil-calendar conversion
algorithms, restricted to instants at or after the epoch. -/

/-- Days since 1970-01-01 to civil `(year, month, day)` (proleptic Gregorian,
valid for nonnegative day counts). -/
def civilFromDays (z0 : Nat) : Nat × Nat × Nat :=
  let z := z0 + 719468
  let era := z / 146097
  let doe := z % 146097
  let yoe := (doe - doe / 1460 + doe / 36524 - doe / 146096) / 365
  let y := yoe + era * 400
  let doy := doe - (365 * yoe + yoe / 4 - yoe / 100)
  let mp := (5 * doy + 2) / 153
  let d := doy - (153 * mp + 2) / 5 + 1
  let m := if mp < 10 then mp + 3 else mp - 9
  (if m ≤ 2 then y + 1 else y, m, d)

/-- Civil `(year, month, day)` to days since 1970-01-01 (for dates at or after
the epoch). -/
def daysFromCivil (y m d : Nat) : Nat :=
  let y' := if m ≤ 2 then y - 1 else y
  let era := y' / 400
  let yoe := y' % 400
  let mp := if 2 < m then m - 3 else m + 9
  let doy := (153 * mp + 2) / 5 + d - 1
  let doe := yoe * 365 + yoe / 4 - yoe / 100 + doy
  era * 146097 + doe - 719468

/-- `dt + td` on the model (`datetime + timedelta`); total on the model's
domain of post-epoch results. -/
def addTimedelta (dt : Nat) (td : Int) : Nat :=
  ((dt : Int) + td).toNat

/-! ## Python `int(...)` and `utilities.timedelta_from_str` -/

deriving instance DecidableEq for Except

/-- Value of a digit string, `none` when empty or containing a non-digit
(the error path of Python's `int(...)`). -/
def pyDigits (l : List Char) : Option Nat :=
  if l.isEmpty then none
  else l.foldl (fun acc c =>
    match acc with
    | some a => if c.isDigit then some (a * 10 + (c.toNat - 48)) else none
    | none => none) (some 0)

/-- Python `int(s)` on an optionally signed decimal literal (whitespace and
underscore tolerance of CPython is out of the model's domain; the source never
feeds it such strings). -/
def pyInt (s : List Char) : Option Int :=
  match s with
  | [] => none
  | c :: rest =>
    if c = '-' then (pyDigits rest).map (fun n => -(n : Int))
    else if c = '+' then (pyDigits rest).map (fun n => (n : Int))
    else (pyDigits (c :: rest)).map (fun n => (n : Int))

/-- The numeric value of an all-digit string (total companion of `pyDigits`). -/
def valOfDigits (l : List Char) : Nat :=
  l.foldl (fun a c => a * 10 + (c.toNat - 48)) 0

/-- `timedelta_from_str`, returning the `timedelta` as a signed number of
seconds; `.error` models the raised `ValueError`. -/
def timedelta_from_str (timeframe : List Char) : Except String Int :=
  let tf := timeframe.map Char.toLower
  if pyContains ['s'] tf then
    match pyInt ((pySplit ['s'] tf).headD []) with
    | some n => .ok n
    | none => .error "ValueError: invalid literal for int"
  else if pyContains ['m'] tf then
    match pyInt ((pySplit ['m'] tf).headD []) with
    | some n => .ok (n * 60)
    | none => .error "ValueError: invalid literal for int"
  else if pyContains ['h'] tf then
    match pyInt ((pySplit ['h'] tf).headD []) with
    | some n => .ok (n * 3600)
    | none => .error "ValueError: invalid literal for int"
  else if pyContains ['d'] tf then
    match pyInt ((pySplit ['d'] tf).headD []) with
    | some n => .ok (n * 86400)
    | none => .error "ValueError: invalid literal for int"
  else .error "ValueError: cannot parse timeframe"

/-! ## `utilities._period_start` and `utilities._timestep_from_timedelta` -/

/-- `_timestep_from_timedelta`: the partition window length for a given
granularity, in seconds.  Both the "yearly" and "monthly" tiers return the
same 31-day constant, exactly as the source does. -/
def _timestep_from_timedelta (td : Int) : Int :=
  if 86400 ≤ td then 31 * 86400
  else if 3600 ≤ td then 31 * 86400
  else 86400

/-- `_period_start`: floor `dt` to January 1 for daily-or-coarser
granularities, to the 1st of its month for hourly granularities, and return it
unchanged otherwise.  (Timezone inheritance in the source is a no-op in this
all-UTC model.) -/
def _period_start (td : Int) (dt : Nat) : Nat :=
  if 86400 ≤ td then
    daysFromCivil (civilFromDays (dt / 86400)).1 1 1 * 86400
  else if 3600 ≤ td then
    let c := civilFromDays (dt / 86400)
    daysFromCivil c.1 c.2.1 1 * 86400
  else dt

/-- One cursor advance of the `candles` windowing loop:
`current_dt = _period_start(td, current_dt + timestep)`. -/
def next_period_start (td : Int) (cursor : Nat) : Nat :=
  _period_start td (addTimedelta cursor (_timestep_from_timedelta td))

/-! ## `utilities.filename_builder` -/

/-- Decimal digits of `n` (fuel-based so it evaluates in the kernel). -/
def natDigitsGo : Nat → Nat → List Char → List Char
  | 0, _, acc => acc
  | fuel + 1, n, acc =>
    if n < 10 then Char.ofNat (48 + n) :: acc
    else natDigitsGo fuel (n / 10) (Char.ofNat (48 + n % 10) :: acc)

/-- Decimal representation of `n`. -/
def natDigits (n : Nat) : List Char := natDigitsGo (n + 1) n []

/-- Two-digit zero-padded decimal (for `%m` / `%d`). -/
def pad2 (n : Nat) : List Char := if n < 10 then '0' :: natDigits n else natDigits n

/-- `datetime.strftime("%Y-%m-%d")` on the model (model domain: years with
four digits, which all instants in the claims have). -/
def strfmtDate (dt : Nat) : List Char :=
  let c := civilFromDays (dt / 86400)
  natDigits c.1 ++ "-".toList ++ pad2 c.2.1 ++ "-".toList ++ pad2 c.2.2

/-- The `_incomplete` marker of `filename_builder`:
`inc = "_incomplete" if start_dt < now < start_dt + window_length else ""`. -/
def incSuffix (startDt : Nat) (window : Int) (now : Nat) : List Char :=
  if (startDt : Int) < (now : Int) ∧ (now : Int) < (startDt : Int) + window then
    "_incomplete".toList
  else []

/-- `filename_builder` for a concrete (non-wildcard) `start_dt`.  `now` is the
ambient clock reading `pytz.utc.localize(datetime.utcnow())`, passed
explicitly; `os.path.join` is the `/`-separated join. -/
def filename_builder (exchange : List Char) (startDt : Nat)
    (download_dir symbol data_type : List Char) (window : Int)
    (data_type_id : Option (List Char)) (now : Nat) : List Char :=
  let dtid := match data_type_id with
    | some i => i ++ "_".toList
    | none => []
  download_dir ++ "/".toList ++
    format_str (exchange.map Char.toLower ++ "_".toList ++ dtid ++ data_type
      ++ "_".toList ++ strfmtDate startDt ++ "_".toList ++ symbol
      ++ incSuffix startDt window now ++ ".parquet".toList)

/-! ## `public._check_to_proceed` and the per-window fetch, at the filesystem
level.  The filesystem is modelled as the list of existing paths. -/

/-- `"_incomplete.parquet".join(filename.split(".parquet"))`. -/
def incomplete_filename (filename : List Char) : List Char :=
  pyJoin "_incomplete.parquet".toList (pySplit ".parquet".toList filename)

/-- `_check_to_proceed`: proceed unless a file exists at `filename` and the
name is not an incomplete one; independently, delete the incomplete sibling if
it exists.  Returns `(proceed, filesystem after the deletion)`. -/
def _check_to_proceed (fs : List (List Char)) (filename : List Char) :
    Bool × List (List Char) :=
  let proceed := !(fs.contains filename && !pyContains "incomplete".toList filename)
  let inc := incomplete_filename filename
  let fs2 := if fs.contains inc then fs.erase inc else fs
  (proceed, fs2)

/-- One window of `_candle_helper` / `_trades_helper` / `_funding_helper` at
the filesystem level: skip when `_check_to_proceed` says no; otherwise fetch,
writing the partition file exactly when the fetched-and-trimmed window is
nonempty (`hasData`).  Returns the new filesystem and whether a write
occurred. -/
def fetch_window (fs : List (List Char)) (filename : List Char) (hasData : Bool) :
    List (List Char) × Bool :=
  let res := _check_to_proceed fs filename
  if res.1 then
    if hasData then (filename :: res.2, true) else (res.2, false)
  else (res.2, false)

/-- A whole fetch call over its windows, in order; returns the final
filesystem and the number of partition writes performed. -/
def fetch_pass : List (List Char) → List (List Char × Bool) → List (List Char) × Nat
  | fs, [] => (fs, 0)
  | fs, w :: rest =>
    let r := fetch_window fs w.1 w.2
    let r2 := fetch_pass r.1 rest
    (r2.1, (if r.2 then 1 else 0) + r2.2)

/-- The `include_incomplete` substitution loop of `load_data`: for each
candidate file whose name does not already contain `"incomplete"`, if the
incomplete sibling exists on disk it replaces the candidate. -/
def substitute_incomplete (fs : List (List Char)) (files : List (List Char)) :
    List (List Char) :=
  files.map (fun f =>
    if pyContains "incomplete".toList f then f
    else if fs.contains (incomplete_filename f) then incomplete_filename f
    else f)

/-! ## The pagination loops of `public.py`.  Numeric payloads (Python floats)
are abstracted to `Int`; only timestamps are ever inspected. -/

/-- `limit = int((end_ts - current_ts) / timeframe_ms) + 1` of the candle
pagination loop (floor division: both operands are nonnegative there). -/
def candleLimit (endTs currentTs tfMs : Nat) : Nat :=
  (endTs - currentTs) / tfMs + 1

structure CandleRow where
  ts : Nat
  o : Int
  hi : Int
  lo : Int
  close : Int
  vol : Int
deriving DecidableEq, Repr, Inhabited

structure TradeRow where
  ts : Nat
  symbol : List Char
  side : List Char
  price : Int
  amount : Int
  cost : Int
deriving DecidableEq, Repr, Inhabited

structure FundingRow where
  ts : Nat
  symbol : List Char
  fundingRate : Int
deriving DecidableEq, Repr, Inhabited

/-- The `while current_ts < end_ts` pagination loop of `_candle_helper`:
request a page at `since = current_ts` with the computed `candleLimit`, stop
on an empty page, advance to one millisecond past the last row.  `fuel` bounds
the iterations (the source loop need not terminate for an adversarial
provider). -/
def fetch_ohlcv_loop (fetchFn : Nat → Nat → List CandleRow) (endTs tfMs : Nat) :
    Nat → Nat → List CandleRow → List CandleRow
  | 0, _, acc => acc
  | fuel + 1, currentTs, acc =>
    if currentTs < endTs then
      let data := fetchFn currentTs (candleLimit endTs currentTs tfMs)
      if data.isEmpty then acc
      else fetch_ohlcv_loop fetchFn endTs tfMs fuel ((data.getLastD default).ts + 1)
        (acc ++ data)
    else acc

/-- Rows persisted by `_candle_helper` for the window `[startTs, endTs)`:
pages accumulated, trimmed to the window, written only when nonempty
(`none` = no file written). -/
def _candle_helper_written (fetchFn : Nat → Nat → List CandleRow)
    (startTs endTs tfMs fuel : Nat) : Option (List CandleRow) :=
  let raw := fetch_ohlcv_loop fetchFn endTs tfMs fuel startTs []
  let df := raw.filter (fun r => decide (startTs ≤ r.ts) && decide (r.ts < endTs))
  if df.isEmpty then none else some df

/-- The pagination loop of `_trades_helper` (fixed page cap 1000). -/
def fetch_trades_loop (fetchFn : Nat → Nat → List TradeRow) (endTs : Nat) :
    Nat → Nat → List TradeRow → List TradeRow
  | 0, _, acc => acc
  | fuel + 1, currentTs, acc =>
    if currentTs < endTs then
      let data := fetchFn currentTs 1000
      if data.isEmpty then acc
      else fetch_trades_loop fetchFn endTs fuel ((data.getLastD default).ts + 1)
        (acc ++ data)
    else acc

/-- Rows persisted by `_trades_helper` for the window `[startTs, endTs)`. -/
def _trades_helper_written (fetchFn : Nat → Nat → List TradeRow)
    (startTs endTs fuel : Nat) : Option (List TradeRow) :=
  let raw := fetch_trades_loop fetchFn endTs fuel startTs []
  let df := raw.filter (fun r => decide (startTs ≤ r.ts) && decide (r.ts < endTs))
  if df.isEmpty then none else some df

/-- The pagination loop of `_funding_helper` (no page cap passed). -/
def fetch_funding_loop (fetchFn : Nat → List FundingRow) (endTs : Nat) :
    Nat → Nat → List FundingRow → List FundingRow
  | 0, _, acc => acc
  | fuel + 1, currentTs, acc =>
    if currentTs < endTs then
      let data := fetchFn currentTs
      if data.isEmpty then acc
      else fetch_funding_loop fetchFn endTs fuel ((data.getLastD default).ts + 1)
        (acc ++ data)
    else acc

/-- Rows persisted by `_funding_helper` for the window `[startTs, endTs)`. -/
def _funding_helper_written (fetchFn : Nat → List FundingRow)
    (startTs endTs fuel : Nat) : Option (List FundingRow) :=
  let raw := fetch_funding_loop fetchFn endTs fuel startTs []
  let df := raw.filter (fun r => decide (startTs ≤ r.ts) && decide (r.ts < endTs))
  if df.isEmpty then none else some df

/-! ## The pandas pipeline at the end of `load_data` -/

/-- A minimal model of a pandas DataFrame as produced by reading the partition
files back: a list of column names and rows of `(timestamp-index, cells)`,
cells as `(column, printed value)` pairs. -/
structure PDFrame where
  columns : List String
  rows : List (Nat × List (String × String))
deriving DecidableEq, Repr

def pdEmpty : PDFrame := ⟨[], []⟩

/-- Keep the first row for each timestamp (`~_df.index.duplicated(keep="first")`). -/
def dedupRowsByTs :
    List (Nat × List (String × String)) → List Nat → List (Nat × List (String × String))
  | [], _ => []
  | r :: rest, seen =>
    if seen.contains r.1 then dedupRowsByTs rest seen
    else r :: dedupRowsByTs rest (r.1 :: seen)

def pdDedupIndex (df : PDFrame) : PDFrame := ⟨df.columns, dedupRowsByTs df.rows []⟩

/-- `pd.concat([a, b])`: union of columns, rows appended. -/
def pdConcat (a b : PDFrame) : PDFrame :=
  ⟨a.columns ++ b.columns.filter (fun c => !a.columns.contains c), a.rows ++ b.rows⟩

def insertByTs (r : Nat × List (String × String)) :
    List (Nat × List (String × String)) → List (Nat × List (String × String))
  | [] => [r]
  | x :: xs => if x.1 ≤ r.1 then x :: insertByTs r xs else r :: x :: xs

def sortRowsByTs :
    List (Nat × List (String × String)) → List (Nat × List (String × String))
  | [] => []
  | x :: xs => insertByTs x (sortRowsByTs xs)

/-- `df.sort_index()` (ascending by timestamp; order among equal keys is
unspecified by pandas, this model keeps the incoming order). -/
def pdSortIndex (df : PDFrame) : PDFrame := ⟨df.columns, sortRowsByTs df.rows⟩

/-- Keep the first row for each `(timestamp, symbol)` pair. -/
def dedupRowsByTsSymbol :
    List (Nat × List (String × String)) → List (Nat × Option String) →
      List (Nat × List (String × String))
  | [], _ => []
  | r :: rest, seen =>
    if seen.contains (r.1, List.lookup "symbol" r.2) then dedupRowsByTsSymbol rest seen
    else r :: dedupRowsByTsSymbol rest ((r.1, List.lookup "symbol" r.2) :: seen)

/-- `df.set_index(["symbol"], append=True)` followed by the duplicate drop and
`reset_index`: pandas raises `KeyError` when the frame has no `symbol` column
(which is the case for the empty concat), else drops rows with duplicate
`(timestamp, symbol)`. -/
def pdSymbolDedup (df : PDFrame) : Except String PDFrame :=
  if df.columns.contains "symbol" then
    .ok ⟨df.columns, dedupRowsByTsSymbol df.rows []⟩
  else .error "KeyError: None of [symbol] are in the columns"

/-- The read-and-concat loop of `load_data`: read each file, skipping
unreadable or missing ones (`try ... except: pass`), dedup each file's index,
concatenate. -/
def load_data_frames (readFs : List Char → Option PDFrame)
    (files : List (List Char)) : PDFrame :=
  files.foldl (fun acc f =>
    match readFs f with
    | some df => pdConcat acc (pdDedupIndex df)
    | none => acc) pdEmpty

/-- The tail of `load_data` after the file list is resolved: load, sort by
index, then the `(timestamp, symbol)` dedup step. -/
def load_data_model (readFs : List Char → Option PDFrame)
    (files : List (List Char)) : Except String PDFrame :=
  pdSymbolDedup (pdSortIndex (load_data_frames readFs files))

/-! ## The end-date clamp of `download` -/

/-- `end_date = min(end_date, pytz.utc.localize(datetime.now()))`:
`datetime.now()` reads the LOCAL wall clock, i.e. `nowUtc + tzOffset`, and
`pytz.utc.localize` attaches the UTC tag without shifting the reading. -/
def download_effective_end (endDate nowUtc : Nat) (tzOffset : Int) : Nat :=
  min endDate (addTimedelta nowUtc tzOffset)

/-! ## Claim C1 -/

/-- Claim C1 (code bug): `load_data` is claimed to return an empty table and
never to fail when no partition files match; in fact with an empty resolved
file list the concatenated frame is the empty `pd.DataFrame()`, which has no
`symbol` column, so the final `set_index(["symbol"], append=True)` step
raises a pandas `KeyError`.  The model evaluates the pipeline at the failing
input (no matching files, e.g. an empty download directory) and shows the
error, for every reader. -/
theorem C1_load_data_no_files_raises (readFs : List Char → Option PDFrame) :
    load_data_model readFs []
      = .error "KeyError: None of [symbol] are in the columns" := rfl

/-! ## Claim C2 -/

/-- Counterexample to claim C2 as stated: for the hourly granularity
(`td` = 3600 s) with the cursor at 2023-02-01, the advanced cursor is
month-floored to 2023-03-01, which is not `cursor + window_length`
(= 2023-03-04): consecutive windows overlap instead of tiling. -/
theorem C2_counterexample :
    next_period_start 3600 (_period_start 3600 (daysFromCivil 2023 2 1 * 86400))
      ≠ addTimedelta (_period_start 3600 (daysFromCivil 2023 2 1 * 86400))
          (_timestep_from_timedelta 3600) := by decide

/-- Claim C2 amended: for every granularity shorter than one hour (where
`_period_start` is the identity and the window is one day), the partition
starts do tile the timeline: for every start instant, advancing the cursor
yields exactly the previous cursor plus the window length. -/
theorem C2_tiling_subhourly (td : Int) (dt : Nat) (h : td < 3600) :
    next_period_start td (_period_start td dt)
      = addTimedelta (_period_start td dt) (_timestep_from_timedelta td) := by
  have h1 : ¬ (86400 : Int) ≤ td := by omega
  have h2 : ¬ (3600 : Int) ≤ td := by omega
  simp only [next_period_start, _period_start, _timestep_from_timedelta,
    if_neg h1, if_neg h2]

/-- Witness for C2 (amended) at the 1-minute granularity and the epoch. -/
theorem C2_tiling_subhourly_witness :
    next_period_start 60 (_period_start 60 0)
      = addTimedelta (_period_start 60 0) (_timestep_from_timedelta 60) :=
  C2_tiling_subhourly 60 0 (by decide)

/-! ## Claim C3 -/

/-- Counterexample to claim C3 as stated: at `now = period_start` the claim
requires the `_incomplete` marker (`period_start <= now < period_start +
window`), but the built filename carries no `incomplete` marker, because the
code tests `start_dt < now` strictly. -/
theorem C3_counterexample :
    pyContains "incomplete".toList
        (filename_builder "binance".toList (daysFromCivil 2023 9 1 * 86400)
          "dl".toList "BTC/USDT".toList "candles".toList 86400
          (some "1m".toList) (daysFromCivil 2023 9 1 * 86400)) = false
      ∧ ((daysFromCivil 2023 9 1 * 86400 : Nat) : Int)
          ≤ ((daysFromCivil 2023 9 1 * 86400 : Nat) : Int)
      ∧ ((daysFromCivil 2023 9 1 * 86400 : Nat) : Int)
          < ((daysFromCivil 2023 9 1 * 86400 : Nat) : Int) + 86400 := by decide

/-- Claim C3 amended: `filename_builder` appends the `_incomplete` suffix iff
`period_start < now < period_start + window_length`, strict on the left: a
partition whose period start equals the current instant is NOT marked
incomplete. -/
theorem C3_incomplete_iff (startDt : Nat) (window : Int) (now : Nat) :
    incSuffix startDt window now = "_incomplete".toList
      ↔ ((startDt : Int) < (now : Int)
          ∧ (now : Int) < (startDt : Int) + window) := by
  unfold incSuffix
  split
  · next hc => simp [hc]
  · next hc =>
    constructor
    · intro he
      exact absurd he (by decide)
    · intro hp
      exact absurd hp hc

/-! ## Claim C6 -/

/-- Counterexample to claim C6 as stated: with 90 000 ms remaining in the
window and a 60 000 ms granularity, the code passes
`limit = int(90000/60000) + 1 = 2`, whereas the claimed formula
`ceil(90000/60000) + 1 = 3`. -/
theorem C6_counterexample :
    candleLimit 90000 0 60000 ≠ (90000 - 0 + 60000 - 1) / 60000 + 1 := by decide

/-- Claim C6 amended: the limit passed on each iteration is
`floor((end_ts - current_ts)/granularity_ms) + 1`.  This equals the claimed
`ceil(...) + 1` exactly when the granularity divides the remaining span, and
equals `ceil(...)` (one less than claimed, still covering the remaining
window) otherwise. -/
theorem C6_limit_floor_succ (endTs currentTs g : Nat) (hg : 0 < g) :
    (g ∣ (endTs - currentTs) →
      candleLimit endTs currentTs g = (endTs - currentTs + g - 1) / g + 1)
  ∧ (¬ g ∣ (endTs - currentTs) →
      candleLimit endTs currentTs g = (endTs - currentTs + g - 1) / g) := by
  constructor
  · rintro ⟨k, hk⟩
    unfold candleLimit
    rw [hk]
    have h1 : g * k / g = k := by
      rw [Nat.mul_div_cancel_left _ hg]
    have h2 : g * k + g - 1 = g * k + (g - 1) := by omega
    rw [h1, h2, Nat.mul_add_div hg, Nat.div_eq_of_lt (by omega)]
  · intro hnd
    unfold candleLimit
    have hr0 : (endTs - currentTs) % g ≠ 0 := fun hmod =>
      hnd (Nat.dvd_iff_mod_eq_zero.mpr hmod)
    have hrlt : (endTs - currentTs) % g < g := Nat.mod_lt _ hg
    set q := (endTs - currentTs) / g with hq
    set r := (endTs - currentTs) % g with hr
    have hsplit : endTs - currentTs = g * q + r := (Nat.div_add_mod _ _).symm
    have hnum : endTs - currentTs + g - 1 = g * q + (r + g - 1) := by omega
    have hdiv1 : (r + g - 1) / g = 1 := by
      apply Nat.div_eq_of_lt_le <;> omega
    rw [hnum, Nat.mul_add_div hg, hdiv1]

/-- Witness for C6 (amended) on an exactly divisible remaining span. -/
theorem C6_limit_floor_succ_witness :
    candleLimit 120000 0 60000 = (120000 - 0 + 60000 - 1) / 60000 + 1 :=
  (C6_limit_floor_succ 120000 0 60000 (by decide)).1 (by decide)

/-! ## Claim C8 -/

/-- Counterexample to claim C8 as stated: both the complete file and its
incomplete sibling exist on disk; the claim says the complete file must then
be used, but `load_data` substitutes the incomplete sibling anyway (the code
never tests whether the complete path exists). -/
theorem C8_counterexample :
    ["dl/a.parquet".toList, "dl/a_incomplete.parquet".toList].contains
        "dl/a.parquet".toList = true
      ∧ substitute_incomplete
          ["dl/a.parquet".toList, "dl/a_incomplete.parquet".toList]
          ["dl/a.parquet".toList]
        = ["dl/a_incomplete.parquet".toList] := by decide

/-- Claim C8 amended: with `include_incomplete=True`, a candidate path not
already containing `"incomplete"` is replaced by its incomplete sibling iff
the sibling exists on disk — regardless of whether the complete file itself
exists. -/
theorem C8_substitution (fs : List (List Char)) (f : List Char)
    (h : pyContains "incomplete".toList f = false) :
    (fs.contains (incomplete_filename f) = true →
      substitute_incomplete fs [f] = [incomplete_filename f])
  ∧ (fs.contains (incomplete_filename f) = false →
      substitute_incomplete fs [f] = [f]) := by
  have hone : substitute_incomplete fs [f]
      = [if pyContains "incomplete".toList f then f
         else if fs.contains (incomplete_filename f) then incomplete_filename f
         else f] := rfl
  constructor <;> intro h2
  · rw [hone, if_neg (fun hx => by rw [hx] at h; exact Bool.noConfusion h), if_pos h2]
  · rw [hone, if_neg (fun hx => by rw [hx] at h; exact Bool.noConfusion h),
      if_neg (fun hx => by rw [hx] at h2; exact Bool.noConfusion h2)]

/-- Witness for C8 (amended) on a filesystem holding both the complete file
and its incomplete sibling. -/
theorem C8_substitution_witness :
    substitute_incomplete
        ["dl/b.parquet".toList, "dl/b_incomplete.parquet".toList]
        ["dl/b.parquet".toList]
      = [incomplete_filename "dl/b.parquet".toList] :=
  (C8_substitution ["dl/b.parquet".toList, "dl/b_incomplete.parquet".toList]
    "dl/b.parquet".toList (by decide)).1 (by decide)

/-! ## Claim C10 -/

/-- Claim C10 (code bug): `download` is claimed to clamp the effective end to
`min(end_date, current UTC instant)`; the code computes
`min(end_date, pytz.utc.localize(datetime.now()))`, and `datetime.now()` is
the LOCAL wall clock mislabelled as UTC (elsewhere the code uses
`datetime.utcnow()`).  On a system one hour east of UTC with the UTC clock at
1 700 000 000, a requested end 1 700 001 800 (30 minutes in the UTC future)
is not clamped at all, so windows starting after the current UTC instant are
still requested; with offset 0 the claimed clamp holds. -/
theorem C10_end_clamp_local_clock :
    download_effective_end 1700001800 1700000000 3600 = 1700001800
      ∧ download_effective_end 1700001800 1700000000 3600
          ≠ min 1700001800 1700000000
      ∧ download_effective_end 1700001800 1700000000 0
          = min 1700001800 1700000000 := by decide

/-! ## Claim C4 -/

/-- Claim C4: for each of the three fetch helpers (`candles`, `trades`,
`funding`), every row persisted to a partition file has its millisecond
timestamp `t` within the window bounds, `start_ts <= t < end_ts`; rows
returned by the provider outside the window are dropped before the write. -/
theorem C4_window_containment :
    (∀ (fetchFn : Nat → Nat → List CandleRow) (startTs endTs tfMs fuel : Nat)
        (rows : List CandleRow),
        _candle_helper_written fetchFn startTs endTs tfMs fuel = some rows →
        ∀ r ∈ rows, startTs ≤ r.ts ∧ r.ts < endTs)
  ∧ (∀ (fetchFn : Nat → Nat → List TradeRow) (startTs endTs fuel : Nat)
        (rows : List TradeRow),
        _trades_helper_written fetchFn startTs endTs fuel = some rows →
        ∀ r ∈ rows, startTs ≤ r.ts ∧ r.ts < endTs)
  ∧ (∀ (fetchFn : Nat → List FundingRow) (startTs endTs fuel : Nat)
        (rows : List FundingRow),
        _funding_helper_written fetchFn startTs endTs fuel = some rows →
        ∀ r ∈ rows, startTs ≤ r.ts ∧ r.ts < endTs) := by
  refine ⟨?_, ?_, ?_⟩
  · intro fetchFn startTs endTs tfMs fuel rows h r hr
    simp only [_candle_helper_written] at h
    split at h
    · exact Option.noConfusion h
    · cases h
      rw [List.mem_filter] at hr
      have h2 := hr.2
      simp only [Bool.and_eq_true, decide_eq_true_eq] at h2
      exact h2
  · intro fetchFn startTs endTs fuel rows h r hr
    simp only [_trades_helper_written] at h
    split at h
    · exact Option.noConfusion h
    · cases h
      rw [List.mem_filter] at hr
      have h2 := hr.2
      simp only [Bool.and_eq_true, decide_eq_true_eq] at h2
      exact h2
  · intro fetchFn startTs endTs fuel rows h r hr
    simp only [_funding_helper_written] at h
    split at h
    · exact Option.noConfusion h
    · cases h
      rw [List.mem_filter] at hr
      have h2 := hr.2
      simp only [Bool.and_eq_true, decide_eq_true_eq] at h2
      exact h2

/-- Witness for C4 at a concrete one-page provider and the window [0, 10). -/
theorem C4_window_containment_witness :
    (0 : Nat) ≤ (⟨5, 0, 0, 0, 0, 0⟩ : CandleRow).ts
      ∧ (⟨5, 0, 0, 0, 0, 0⟩ : CandleRow).ts < 10 :=
  C4_window_containment.1 (fun _ _ => [⟨5, 0, 0, 0, 0, 0⟩]) 0 10 1 1
    [⟨5, 0, 0, 0, 0, 0⟩] (by decide) ⟨5, 0, 0, 0, 0, 0⟩ (by decide)

/-! ## Claim C5 -/

/-- Claim C5: a window whose complete (non-incomplete-named) partition file
already exists is skipped by `_check_to_proceed` without fetching or writing;
consequently a second fetch pass over a fully-elapsed range — every window's
complete file present, no incomplete siblings on disk — performs zero writes
and leaves the filesystem exactly as it was. -/
theorem C5_idempotent_refetch :
    (∀ (fs : List (List Char)) (fn : List Char),
        fs.contains fn = true → pyContains "incomplete".toList fn = false →
        (_check_to_proceed fs fn).1 = false)
  ∧ (∀ (fs : List (List Char)) (ws : List (List Char × Bool)),
        (∀ w ∈ ws, fs.contains w.1 = true
          ∧ pyContains "incomplete".toList w.1 = false
          ∧ fs.contains (incomplete_filename w.1) = false) →
        fetch_pass fs ws = (fs, 0)) := by
  constructor
  · intro fs fn h1 h2
    have h1m : fn ∈ fs := by simpa using h1
    have h2l : pyContains ['i', 'n', 'c', 'o', 'm', 'p', 'l', 'e', 't', 'e'] fn
        = false := h2
    simp [_check_to_proceed, h1m, h2l]
  · intro fs ws
    induction ws with
    | nil => intro _; rfl
    | cons w rest ih =>
      intro hws
      obtain ⟨h1, h2, h3⟩ := hws w (List.mem_cons_self _ _)
      have h1m : w.1 ∈ fs := by simpa using h1
      have h2l : pyContains ['i', 'n', 'c', 'o', 'm', 'p', 'l', 'e', 't', 'e'] w.1
          = false := h2
      have h3m : incomplete_filename w.1 ∉ fs := by simpa using h3
      have hwin : fetch_window fs w.1 w.2 = (fs, false) := by
        simp [fetch_window, _check_to_proceed, h1m, h2l, h3m]
      have ihr : fetch_pass fs rest = (fs, 0) :=
        ih (fun x hx => hws x (List.mem_cons_of_mem _ hx))
      show (let r := fetch_window fs w.1 w.2
            let r2 := fetch_pass r.1 rest
            (r2.1, (if r.2 then 1 else 0) + r2.2)) = (fs, 0)
      rw [hwin]
      simp only []
      rw [ihr]
      rfl

/-- Witness for C5 on a one-window pass whose complete file already exists. -/
theorem C5_idempotent_refetch_witness :
    fetch_pass ["dl/x.parquet".toList] [("dl/x.parquet".toList, true)]
      = (["dl/x.parquet".toList], 0) :=
  C5_idempotent_refetch.2 ["dl/x.parquet".toList] [("dl/x.parquet".toList, true)]
    (by decide)

/-! ## Claim C7 -/

/-- Lowercasing is the identity on decimal digits. -/
theorem toLower_of_isDigit (c : Char) (h : c.isDigit = true) : c.toLower = c := by
  have h' : c.val.toNat ≤ 57 ∧ 48 ≤ c.val.toNat := by
    simp [Char.isDigit] at h
    obtain ⟨h1, h2⟩ := h
    constructor
    · exact h2
    · exact h1
  simp only [Char.toLower, Char.toNat]
  rw [if_neg]
  omega

/-- Lowercasing is the identity on all-digit strings. -/
theorem map_toLower_digits (ds : List Char) :
    (∀ c ∈ ds, c.isDigit = true) → ds.map Char.toLower = ds := by
  induction ds with
  | nil => intro _; rfl
  | cons c t ih =>
    intro h
    rw [List.map_cons, toLower_of_isDigit c (h c (List.mem_cons_self _ _)),
      ih (fun x hx => h x (List.mem_cons_of_mem _ hx))]

/-- A non-digit character is `BEq`-distinct from every digit. -/
theorem beq_false_of_digit (u c : Char) (hc : c.isDigit = true)
    (hu : u.isDigit = false) : (u == c) = false := by
  cases hb : u == c
  · rfl
  · have he : u = c := eq_of_beq hb
    subst he
    rw [hc] at hu
    exact Bool.noConfusion hu

/-- The empty list is a Boolean prefix of everything. -/
theorem nil_isPrefixOf (t : List Char) : ([] : List Char).isPrefixOf t = true := by
  cases t <;> rfl

/-- Single-character substring search is `List.any`. -/
theorem pyContains_single (u : Char) (l : List Char) :
    pyContains [u] l = l.any (fun c => u == c) := by
  induction l with
  | nil => rfl
  | cons c t ih =>
    show ([u].isPrefixOf (c :: t) || pyContains [u] t) = _
    rw [ih]
    have hpre : [u].isPrefixOf (c :: t) = (u == c) := by
      show (u == c && ([] : List Char).isPrefixOf t) = (u == c)
      rw [nil_isPrefixOf, Bool.and_true]
    rw [hpre, List.any_cons]

/-- A non-digit unit character never occurs in a digit string. -/
theorem any_beq_digits_false (u : Char) (ds : List Char) (hu : u.isDigit = false) :
    (∀ c ∈ ds, c.isDigit = true) → ds.any (fun c => u == c) = false := by
  induction ds with
  | nil => intro _; rfl
  | cons c t ih =>
    intro hdig
    rw [List.any_cons,
      beq_false_of_digit u c (hdig c (List.mem_cons_self _ _)) hu,
      ih (fun x hx => hdig x (List.mem_cons_of_mem _ hx))]
    rfl

/-- Occurrence of a non-digit unit `u` in `ds ++ [v]` for all-digit `ds` is
decided by the final character. -/
theorem pyContains_digits_append (u v : Char) (ds : List Char)
    (hdig : ∀ c ∈ ds, c.isDigit = true) (hu : u.isDigit = false) :
    pyContains [u] (ds ++ [v]) = (u == v) := by
  rw [pyContains_single, List.any_append, any_beq_digits_false u ds hu hdig]
  simp

/-- `pyDigits` agrees with `valOfDigits` on all-digit strings (fold form). -/
theorem pyDigits_go (ds : List Char) :
    (∀ c ∈ ds, c.isDigit = true) → ∀ a : Nat,
      ds.foldl (fun acc c =>
        match acc with
        | some x => if c.isDigit then some (x * 10 + (c.toNat - 48)) else none
        | none => none) (some a)
      = some (ds.foldl (fun x c => x * 10 + (c.toNat - 48)) a) := by
  induction ds with
  | nil => intro _ a; rfl
  | cons c t ih =>
    intro hdig a
    have hc : c.isDigit = true := hdig c (List.mem_cons_self _ _)
    rw [List.foldl_cons, List.foldl_cons]
    have hstep : (match some a with
        | some x => if c.isDigit then some (x * 10 + (c.toNat - 48)) else none
        | none => none) = some (a * 10 + (c.toNat - 48)) := by
      simp [hc]
    rw [hstep]
    exact ih (fun x hx => hdig x (List.mem_cons_of_mem _ hx)) _

/-- `pyDigits` on a nonempty all-digit string. -/
theorem pyDigits_digits (ds : List Char) (hne : ds ≠ [])
    (hdig : ∀ c ∈ ds, c.isDigit = true) :
    pyDigits ds = some (valOfDigits ds) := by
  have hie : ds.isEmpty = false := by
    cases ds with
    | nil => exact absurd rfl hne
    | cons c t => rfl
  unfold pyDigits
  rw [if_neg (by simp [hie])]
  exact pyDigits_go ds hdig 0

/-- `pyInt` on a nonempty all-digit string. -/
theorem pyInt_digits (ds : List Char) (hne : ds ≠ [])
    (hdig : ∀ c ∈ ds, c.isDigit = true) :
    pyInt ds = some ((valOfDigits ds : Nat) : Int) := by
  cases ds with
  | nil => exact absurd rfl hne
  | cons c t =>
    have hc : c.isDigit = true := hdig c (List.mem_cons_self _ _)
    have h1 : ¬ c = '-' := by
      rintro rfl
      exact absurd hc (by decide)
    have h2 : ¬ c = '+' := by
      rintro rfl
      exact absurd hc (by decide)
    show (if c = '-' then (pyDigits t).map (fun n => -(n : Int))
      else if c = '+' then (pyDigits t).map (fun n => (n : Int))
      else (pyDigits (c :: t)).map (fun n => (n : Int)))
      = some ((valOfDigits (c :: t) : Nat) : Int)
    rw [if_neg h1, if_neg h2, pyDigits_digits (c :: t) hne hdig]
    rfl

/-- Splitting `ds ++ u :: rest` on the single character `u`, when `u` does not
occur in `ds`, yields `ds` as the first segment. -/
theorem pySplitGo_digits (u : Char) :
    ∀ (ds rest : List Char) (fuel : Nat),
      (∀ c ∈ ds, (u == c) = false) →
      (ds ++ u :: rest).length ≤ fuel →
      ∃ tail, pySplitGo [u] fuel (ds ++ u :: rest) = ds :: tail := by
  intro ds
  induction ds with
  | nil =>
    intro rest fuel _ hf
    cases fuel with
    | zero => simp at hf
    | succ fuel =>
      refine ⟨pySplitGo [u] fuel rest, ?_⟩
      show pySplitGo [u] (fuel + 1) (u :: rest) = [] :: pySplitGo [u] fuel rest
      rw [pySplitGo, if_pos]
      · rfl
      · have := isPrefixOf_append_self [u] rest
        simp only [List.cons_append, List.nil_append] at this
        simp [this]
  | cons c ds ih =>
    intro rest fuel h hf
    cases fuel with
    | zero => simp at hf
    | succ fuel =>
      have hc : (u == c) = false := h c (List.mem_cons_self _ _)
      obtain ⟨tail, htail⟩ := ih rest fuel
        (fun x hx => h x (List.mem_cons_of_mem _ hx)) (by simpa using hf)
      refine ⟨tail, ?_⟩
      show pySplitGo [u] (fuel + 1) (c :: (ds ++ u :: rest)) = (c :: ds) :: tail
      rw [pySplitGo, if_neg]
      · rw [htail]
      · show ¬ ((!([u] : List Char).isEmpty
            && [u].isPrefixOf (c :: (ds ++ u :: rest))) = true)
        have hpre : [u].isPrefixOf (c :: (ds ++ u :: rest)) = false := by
          show (u == c && ([] : List Char).isPrefixOf (ds ++ u :: rest)) = false
          rw [hc, Bool.false_and]
        simp [hpre]

/-- Head segment of the split, wrapper form. -/
theorem pySplit_head (u : Char) (ds rest : List Char)
    (h : ∀ c ∈ ds, (u == c) = false) :
    (pySplit [u] (ds ++ u :: rest)).headD [] = ds := by
  obtain ⟨tail, ht⟩ :=
    pySplitGo_digits u ds rest (ds ++ u :: rest).length h le_rfl
  unfold pySplit
  rw [ht]
  rfl

/-- Counterexample to claim C7 as stated: the label `"2mx"` carries the
unknown unit `"mx"` (its text after the leading integer), yet the parser
silently returns 2 minutes — the unit characters are matched by first
occurrence, not validated — instead of raising a parse error. -/
theorem C7_counterexample :
    "2mx".toList.dropWhile Char.isDigit = "mx".toList
      ∧ timedelta_from_str "2mx".toList = Except.ok 120 := by decide

/-- Claim C7 amended: labels `<int>u` with unit `u ∈ {s, m, h, d}` map to
that many seconds, minutes, hours or days; a label whose lowercasing contains
none of the four unit characters (such as `"2x"`) raises `ValueError`.
Labels with a multi-character unknown unit that contains a unit character
(such as `"2mx"`) are, however, parsed by first occurrence rather than
rejected. -/
theorem C7_timeframe_labels (ds tf : List Char) (hne : ds ≠ [])
    (hdig : ∀ c ∈ ds, c.isDigit = true) :
    (timedelta_from_str (ds ++ ['s']) = Except.ok ((valOfDigits ds : Nat) : Int)
      ∧ timedelta_from_str (ds ++ ['m'])
          = Except.ok (((valOfDigits ds : Nat) : Int) * 60)
      ∧ timedelta_from_str (ds ++ ['h'])
          = Except.ok (((valOfDigits ds : Nat) : Int) * 3600)
      ∧ timedelta_from_str (ds ++ ['d'])
          = Except.ok (((valOfDigits ds : Nat) : Int) * 86400))
  ∧ (pyContains ['s'] (tf.map Char.toLower) = false →
      pyContains ['m'] (tf.map Char.toLower) = false →
      pyContains ['h'] (tf.map Char.toLower) = false →
      pyContains ['d'] (tf.map Char.toLower) = false →
      timedelta_from_str tf = Except.error "ValueError: cannot parse timeframe") := by
  have hmap : ∀ u : Char, u.isDigit = false → u.toLower = u →
      (ds ++ [u]).map Char.toLower = ds ++ [u] := by
    intro u _ hu2
    rw [List.map_append, map_toLower_digits ds hdig, List.map_cons, List.map_nil, hu2]
  have hsplitInt : ∀ u : Char, u.isDigit = false →
      pyInt ((pySplit [u] (ds ++ [u])).headD [])
        = some ((valOfDigits ds : Nat) : Int) := by
    intro u hu
    rw [pySplit_head u ds []
      (fun c hc => beq_false_of_digit u c (hdig c hc) hu)]
    exact pyInt_digits ds hne hdig
  have hcontains : ∀ u v : Char, u.isDigit = false →
      pyContains [u] (ds ++ [v]) = (u == v) := fun u v hu =>
    pyContains_digits_append u v ds hdig hu
  constructor
  · refine ⟨?_, ?_, ?_, ?_⟩
    · unfold timedelta_from_str
      rw [hmap 's' (by decide) (by decide)]
      rw [if_pos (by rw [hcontains 's' 's' (by decide)]; rfl)]
      rw [hsplitInt 's' (by decide)]
    · unfold timedelta_from_str
      rw [hmap 'm' (by decide) (by decide)]
      rw [if_neg (by rw [hcontains 's' 'm' (by decide)]; exact Bool.noConfusion)]
      rw [if_pos (by rw [hcontains 'm' 'm' (by decide)]; rfl)]
      rw [hsplitInt 'm' (by decide)]
    · unfold timedelta_from_str
      rw [hmap 'h' (by decide) (by decide)]
      rw [if_neg (by rw [hcontains 's' 'h' (by decide)]; exact Bool.noConfusion)]
      rw [if_neg (by rw [hcontains 'm' 'h' (by decide)]; exact Bool.noConfusion)]
      rw [if_pos (by rw [hcontains 'h' 'h' (by decide)]; rfl)]
      rw [hsplitInt 'h' (by decide)]
    · unfold timedelta_from_str
      rw [hmap 'd' (by decide) (by decide)]
      rw [if_neg (by rw [hcontains 's' 'd' (by decide)]; exact Bool.noConfusion)]
      rw [if_neg (by rw [hcontains 'm' 'd' (by decide)]; exact Bool.noConfusion)]
      rw [if_neg (by rw [hcontains 'h' 'd' (by decide)]; exact Bool.noConfusion)]
      rw [if_pos (by rw [hcontains 'd' 'd' (by decide)]; rfl)]
      rw [hsplitInt 'd' (by decide)]
  · intro hs hm hh2 hd2
    unfold timedelta_from_str
    rw [if_neg (fun hx => by rw [hx] at hs; exact Bool.noConfusion hs),
      if_neg (fun hx => by rw [hx] at hm; exact Bool.noConfusion hm),
      if_neg (fun hx => by rw [hx] at hh2; exact Bool.noConfusion hh2),
      if_neg (fun hx => by rw [hx] at hd2; exact Bool.noConfusion hd2)]

/-- Witness for C7 (amended): `"2s"` parses to 2 seconds and `"2x"` raises. -/
theorem C7_timeframe_labels_witness :
    timedelta_from_str (['2'] ++ ['s'])
        = Except.ok ((valOfDigits ['2'] : Nat) : Int)
      ∧ timedelta_from_str "2x".toList
        = Except.error "ValueError: cannot parse timeframe" := by
  have h := C7_timeframe_labels ['2'] "2x".toList (by decide) (by decide)
  exact ⟨h.1.1, h.2 (by decide) (by decide) (by decide) (by decide)⟩

/-! ## Claim C9 -/

/-- Character inequality gives `BEq` falsity. -/
theorem char_beq_false_of_ne (a b : Char) (h : a ≠ b) : (a == b) = false := by
  cases hb : a == b
  · rfl
  · exact absurd (eq_of_beq hb) h

/-- Replacing a single character at a matching head. -/
theorem pyReplace_single_match (a : Char) (r t : List Char) :
    pyReplace [a] r (a :: t) = r ++ pyReplace [a] r t := by
  have h := pyReplace_match [a] r t (by simp)
  simpa using h

/-- Replacing a single character at a non-matching head. -/
theorem pyReplace_single_nomatch (a c : Char) (r t : List Char)
    (h : (a == c) = false) :
    pyReplace [a] r (c :: t) = c :: pyReplace [a] r t := by
  apply pyReplace_nomatch
  show (a == c && ([] : List Char).isPrefixOf t) = false
  rw [h, Bool.false_and]

/-- `'/' -> "%2F"` at a slash head, in cons form. -/
theorem pyReplace_slash_cons (t : List Char) :
    pyReplace ['/'] ['%', '2', 'F'] ('/' :: t)
      = '%' :: '2' :: 'F' :: pyReplace ['/'] ['%', '2', 'F'] t := by
  have h := pyReplace_match ['/'] ['%', '2', 'F'] t (by simp)
  simpa using h

/-- `':' -> "%3A"` at a colon head, in cons form. -/
theorem pyReplace_colon_cons (t : List Char) :
    pyReplace [':'] ['%', '3', 'A'] (':' :: t)
      = '%' :: '3' :: 'A' :: pyReplace [':'] ['%', '3', 'A'] t := by
  have h := pyReplace_match [':'] ['%', '3', 'A'] t (by simp)
  simpa using h

/-- The colon replacement passes over an inserted `"%2F"` block. -/
theorem pyReplace_colon_skip_2F (x : List Char) :
    pyReplace [':'] ['%', '3', 'A'] ('%' :: '2' :: 'F' :: x)
      = '%' :: '2' :: 'F' :: pyReplace [':'] ['%', '3', 'A'] x := by
  rw [pyReplace_single_nomatch ':' '%' ['%', '3', 'A'] _ (by decide),
    pyReplace_single_nomatch ':' '2' ['%', '3', 'A'] _ (by decide),
    pyReplace_single_nomatch ':' 'F' ['%', '3', 'A'] _ (by decide)]

/-- `"%2F" -> "/"` at a matching block. -/
theorem pyReplace_2F_match (y : List Char) :
    pyReplace ['%', '2', 'F'] ['/'] ('%' :: '2' :: 'F' :: y)
      = '/' :: pyReplace ['%', '2', 'F'] ['/'] y := by
  have h := pyReplace_match ['%', '2', 'F'] ['/'] y (by simp)
  simpa using h

/-- `"%2F" -> "/"` skips a head that is not `'%'`. -/
theorem pyReplace_2F_nomatch (c : Char) (y : List Char) (h : ('%' == c) = false) :
    pyReplace ['%', '2', 'F'] ['/'] (c :: y)
      = c :: pyReplace ['%', '2', 'F'] ['/'] y := by
  apply pyReplace_nomatch
  show ('%' == c && List.isPrefixOf ['2', 'F'] y) = false
  rw [h, Bool.false_and]

/-- `"%2F" -> "/"` passes over a `"%3A"` block. -/
theorem pyReplace_2F_skip_3A (y : List Char) :
    pyReplace ['%', '2', 'F'] ['/'] ('%' :: '3' :: 'A' :: y)
      = '%' :: '3' :: 'A' :: pyReplace ['%', '2', 'F'] ['/'] y := by
  rw [pyReplace_nomatch ['%', '2', 'F'] ['/'] '%' ('3' :: 'A' :: y) (by rfl),
    pyReplace_2F_nomatch '3' ('A' :: y) (by decide),
    pyReplace_2F_nomatch 'A' y (by decide)]

/-- `"%3A" -> ":"` at a matching block. -/
theorem pyReplace_3A_match (y : List Char) :
    pyReplace ['%', '3', 'A'] [':'] ('%' :: '3' :: 'A' :: y)
      = ':' :: pyReplace ['%', '3', 'A'] [':'] y := by
  have h := pyReplace_match ['%', '3', 'A'] [':'] y (by simp)
  simpa using h

/-- `"%3A" -> ":"` skips a head that is not `'%'`. -/
theorem pyReplace_3A_nomatch (c : Char) (y : List Char) (h : ('%' == c) = false) :
    pyReplace ['%', '3', 'A'] [':'] (c :: y)
      = c :: pyReplace ['%', '3', 'A'] [':'] y := by
  apply pyReplace_nomatch
  show ('%' == c && List.isPrefixOf ['3', 'A'] y) = false
  rw [h, Bool.false_and]

/-- Counterexample to claim C9 as stated: the round trip is not the identity
on every string — a string already containing an escape sequence is mangled:
`unformat_str (format_str "%2F") = "/"`. -/
theorem C9_counterexample :
    unformat_str (format_str "%2F".toList) ≠ "%2F".toList := by decide

/-- Claim C9 amended: on every string containing no `'%'` character — in
particular every raw exchange symbol — `unformat_str` inverts `format_str`
exactly; strings already containing an escape sequence such as `"%2F"` are
not recovered. -/
theorem C9_roundtrip (s : List Char) (h : '%' ∉ s) :
    unformat_str (format_str s) = s := by
  induction s with
  | nil => rfl
  | cons c t ih =>
    have hcp : c ≠ '%' := fun hch => h (List.mem_cons.mpr (Or.inl hch.symm))
    have hmem : '%' ∉ t := fun hm => h (List.mem_cons_of_mem _ hm)
    have iht := ih hmem
    rw [format_str_eq, unformat_str_eq] at iht ⊢
    by_cases h1 : c = '/'
    · subst h1
      rw [pyReplace_slash_cons, pyReplace_colon_skip_2F, pyReplace_2F_match,
        pyReplace_3A_nomatch '/' _ (by decide), iht]
    · by_cases h2 : c = ':'
      · subst h2
        rw [pyReplace_single_nomatch '/' ':' ['%', '2', 'F'] _ (by decide),
          pyReplace_colon_cons, pyReplace_2F_skip_3A, pyReplace_3A_match, iht]
      · have hbs : ('/' == c) = false :=
          char_beq_false_of_ne '/' c (fun he => h1 he.symm)
        have hbc : (':' == c) = false :=
          char_beq_false_of_ne ':' c (fun he => h2 he.symm)
        have hbp : ('%' == c) = false :=
          char_beq_false_of_ne '%' c (fun he => hcp he.symm)
        rw [pyReplace_single_nomatch '/' c ['%', '2', 'F'] _ hbs,
          pyReplace_single_nomatch ':' c ['%', '3', 'A'] _ hbc,
          pyReplace_2F_nomatch c _ hbp, pyReplace_3A_nomatch c _ hbp, iht]

/-- Witness for C9 (amended) on a real symbol string. -/
theorem C9_roundtrip_witness :
    unformat_str (format_str "BTC/USDT:USDT".toList) = "BTC/USDT:USDT".toList :=
  C9_roundtrip "BTC/USDT:USDT".toList (by decide)
